import Mathlib

/-!
# Burnout Score Engine — formalization

Shallow embedding of `analyze_work_patterns` from
`backend/burnout_analysis.py` (shipped in compiled form in the repository).
The per-row computation recovered from the compiled bytecode is:

    idle     = row["idle_time"]
    meetings = row["meetings_attended"]
    logins   = row["login_count"]
    score    = 100 - (idle * 2 + (5 - meetings) * 3 + (3 - logins) * 4)
    burnout_scores[row["name"]] = max(0, min(100, score))

executed once per row, in row order, into an insertion-ordered dictionary
that is returned at the end.  Numeric fields are modelled as rationals.
-/

namespace BurnoutEngine

/-- One row of observed behaviour for one employee. -/
structure EmployeeActivityRecord where
  name : String
  idle_time : ℚ
  meetings_attended : ℚ
  login_count : ℚ
  deriving DecidableEq, Repr

/-- Python's binary `max` on rationals. -/
def pyMax (a b : ℚ) : ℚ := if a ≤ b then b else a

/-- Python's binary `min` on rationals. -/
def pyMin (a b : ℚ) : ℚ := if b ≤ a then b else a

/-- The `score` variable of `analyze_work_patterns` before the clamp:
`100 - (idle*2 + (5 - meetings)*3 + (3 - logins)*4)`. -/
def rawScore (r : EmployeeActivityRecord) : ℚ :=
  100 - (r.idle_time * 2 + (5 - r.meetings_attended) * 3 + (3 - r.login_count) * 4)

/-- The per-row score of `analyze_work_patterns`:
`max(0, min(100, 100 - (idle*2 + (5 - meetings)*3 + (3 - logins)*4)))`. -/
def burnoutScore (r : EmployeeActivityRecord) : ℚ :=
  pyMax 0 (pyMin 100
    (100 - (r.idle_time * 2 + (5 - r.meetings_attended) * 3 + (3 - r.login_count) * 4)))

/-- Python-dict assignment `m[k] = v`: overwrite in place when the key is
already present (keeping insertion order), append otherwise. -/
def insertScore (m : List (String × ℚ)) (k : String) (v : ℚ) : List (String × ℚ) :=
  if m.any (fun p => p.1 == k) then
    m.map (fun p => if p.1 = k then (k, v) else p)
  else
    m ++ [(k, v)]

/-- The whole loop of `analyze_work_patterns`: one dictionary assignment per
record, in input order, starting from the empty dictionary. -/
def computeScores (records : List EmployeeActivityRecord) : List (String × ℚ) :=
  records.foldl (fun m r => insertScore m r.name (burnoutScore r)) []

/-- The last record of the batch bearing a given name, if any. -/
def lastRecordNamed (rs : List EmployeeActivityRecord) (n : String) :
    Option EmployeeActivityRecord :=
  rs.foldl (fun acc r => if r.name = n then some r else acc) none

/-- Fuel-indexed version of the scoring loop: it spends exactly one unit of
fuel per record and fails (returns `none`) only when the fuel runs out. -/
def computeScoresFuel :
    Nat → List EmployeeActivityRecord → List (String × ℚ) → Option (List (String × ℚ))
  | _, [], m => some m
  | 0, _ :: _, _ => none
  | fuel + 1, r :: rs, m => computeScoresFuel fuel rs (insertScore m r.name (burnoutScore r))

/-- The scoring formula exactly as the specification's algorithm section
states it (idle weight 1, shortfall weights 2 and 3, inner floors at the
shortfalls); written from the spec text, to be compared with `burnoutScore`,
which is the formula of the code. -/
def specScore (r : EmployeeActivityRecord) : ℚ :=
  pyMax 0 (pyMin 100
    (100 - r.idle_time * 1 - pyMax 0 (5 - r.meetings_attended) * 2
      - pyMax 0 (3 - r.login_count) * 3))

/-- Modelled from the spec: the repository ships only the compiled scoring
loop; the loosely-typed field values the validating front end must inspect
(spec section 4.1 and section 7) appear in no source file.  A raw field is
either a number or a non-numeric value, rendered here as a string. -/
inductive FieldValue where
  | num : ℚ → FieldValue
  | str : String → FieldValue
  deriving DecidableEq, Repr

/-- Modelled from the spec: one loosely-typed input row; each required field
may be absent (`none`) or hold a value of the wrong kind. -/
structure RawRecord where
  name : Option String
  idle_time : Option FieldValue
  meetings_attended : Option FieldValue
  login_count : Option FieldValue
  deriving DecidableEq, Repr

/-- Modelled from the spec: a `ValidationError` identifies the offending
record (by its position in the batch) and the offending field name. -/
structure ValidationError where
  recordIndex : Nat
  fieldName : String
  deriving DecidableEq, Repr

/-- Modelled from the spec: a numeric field validates only when present and
numeric; a missing or non-numeric field yields nothing. -/
def validateField : Option FieldValue → Option ℚ
  | some (FieldValue.num q) => some q
  | _ => none

/-- Modelled from the spec: validate one record, signalling the first
missing or non-numeric field as a `ValidationError` naming the record and
the field, never coercing to a default. -/
def validateRecord (i : Nat) (r : RawRecord) :
    Except ValidationError EmployeeActivityRecord :=
  match r.name with
  | none => Except.error ⟨i, "name"⟩
  | some nm =>
    match validateField r.idle_time with
    | none => Except.error ⟨i, "idle_time"⟩
    | some it =>
      match validateField r.meetings_attended with
      | none => Except.error ⟨i, "meetings_attended"⟩
      | some ma =>
        match validateField r.login_count with
        | none => Except.error ⟨i, "login_count"⟩
        | some lc => Except.ok ⟨nm, it, ma, lc⟩

/-- Modelled from the spec: validate a whole batch in order, starting at
record index `j`; the first invalid record aborts the computation. -/
def validateFrom (j : Nat) :
    List RawRecord → Except ValidationError (List EmployeeActivityRecord)
  | [] => Except.ok []
  | r :: rs =>
    match validateRecord j r with
    | Except.error e => Except.error e
    | Except.ok rec =>
      match validateFrom (j + 1) rs with
      | Except.error e => Except.error e
      | Except.ok recs => Except.ok (rec :: recs)

/-- Modelled from the spec: the validating engine — validate every record,
propagating the first `ValidationError` immediately, and only score a fully
valid batch. -/
def computeScoresChecked (rs : List RawRecord) :
    Except ValidationError (List (String × ℚ)) :=
  match validateFrom 0 rs with
  | Except.error e => Except.error e
  | Except.ok recs => Except.ok (computeScores recs)

/-- A record validates (independently of its position in the batch). -/
def recordOk (r : RawRecord) : Bool :=
  r.name.isSome && (validateField r.idle_time).isSome
    && (validateField r.meetings_attended).isSome
    && (validateField r.login_count).isSome

/-- The field named `f` of raw record `r` is missing or non-numeric. -/
def fieldBad (r : RawRecord) (f : String) : Prop :=
  (f = "name" ∧ r.name = none) ∨
  (f = "idle_time" ∧ validateField r.idle_time = none) ∨
  (f = "meetings_attended" ∧ validateField r.meetings_attended = none) ∨
  (f = "login_count" ∧ validateField r.login_count = none)

instance (r : RawRecord) (f : String) : Decidable (fieldBad r f) := by
  unfold fieldBad
  infer_instance

section BasicLemmas

theorem pyMax_eq_max (a b : ℚ) : pyMax a b = max a b := (max_def a b).symm

theorem pyMin_eq_min (a b : ℚ) : pyMin a b = min a b := by
  rw [pyMin, min_def]
  rcases le_total a b with h | h
  · rcases eq_or_lt_of_le h with rfl | hlt
    · simp
    · rw [if_neg (not_le.mpr hlt), if_pos h]
  · rw [if_pos h]
    rcases eq_or_lt_of_le h with rfl | hlt
    · simp
    · rw [if_neg (not_le.mpr hlt)]

/-- `burnoutScore` written with the lattice `max`/`min`. -/
theorem burnoutScore_eq_clamp (r : EmployeeActivityRecord) :
    burnoutScore r = max 0 (min 100
      (100 - (r.idle_time * 2 + (5 - r.meetings_attended) * 3 + (3 - r.login_count) * 4))) := by
  rw [burnoutScore, pyMax_eq_max, pyMin_eq_min]

theorem burnoutScore_nonneg (r : EmployeeActivityRecord) : 0 ≤ burnoutScore r := by
  unfold burnoutScore pyMax pyMin
  split_ifs <;> linarith

theorem burnoutScore_le_100 (r : EmployeeActivityRecord) : burnoutScore r ≤ 100 := by
  unfold burnoutScore pyMax pyMin
  split_ifs <;> linarith

end BasicLemmas

section DictLemmas

theorem lookup_eq_none_of_any_eq_false (m : List (String × ℚ)) (k : String)
    (h : m.any (fun p => p.1 == k) = false) : List.lookup k m = none := by
  induction m with
  | nil => rfl
  | cons p m ih =>
    rcases p with ⟨a, b⟩
    simp only [List.any_cons, Bool.or_eq_false_iff] at h
    have hk : k ≠ a := (ne_of_beq_false h.1).symm
    rw [List.lookup_cons, beq_false_of_ne hk]
    exact ih h.2

theorem lookup_append_of_none (m l : List (String × ℚ)) (k : String)
    (h : List.lookup k m = none) : List.lookup k (m ++ l) = List.lookup k l := by
  induction m with
  | nil => rfl
  | cons p m ih =>
    rcases p with ⟨a, b⟩
    by_cases hk : k = a
    · rw [List.lookup_cons, hk, beq_self_eq_true] at h
      simp at h
    · rw [List.lookup_cons, beq_false_of_ne hk] at h
      rw [List.cons_append, List.lookup_cons, beq_false_of_ne hk]
      exact ih h

theorem lookup_append_single_other (m : List (String × ℚ)) (k k' : String) (v : ℚ)
    (h : k' ≠ k) : List.lookup k' (m ++ [(k, v)]) = List.lookup k' m := by
  induction m with
  | nil =>
    rw [List.nil_append, List.lookup_cons, beq_false_of_ne h]
  | cons p m ih =>
    rcases p with ⟨a, b⟩
    by_cases hk : k' = a
    · rw [List.cons_append, List.lookup_cons, hk, beq_self_eq_true,
        List.lookup_cons, beq_self_eq_true]
    · rw [List.cons_append, List.lookup_cons, beq_false_of_ne hk,
        List.lookup_cons, beq_false_of_ne hk]
      exact ih

theorem lookup_map_overwrite (m : List (String × ℚ)) (k : String) (v : ℚ)
    (h : m.any (fun p => p.1 == k) = true) :
    List.lookup k (m.map (fun p => if p.1 = k then (k, v) else p)) = some v := by
  induction m with
  | nil => simp at h
  | cons p m ih =>
    rcases p with ⟨a, b⟩
    simp only [List.any_cons, Bool.or_eq_true] at h
    simp only [List.map_cons]
    dsimp only
    by_cases hak : a = k
    · rw [if_pos hak, List.lookup_cons, beq_self_eq_true]
    · have ht : m.any (fun p => p.1 == k) = true := by
        rcases h with h | h
        · exact absurd (by simpa using h) hak
        · exact h
      have hka : k ≠ a := fun he => hak he.symm
      rw [if_neg hak, List.lookup_cons, beq_false_of_ne hka]
      exact ih ht

theorem lookup_map_other (m : List (String × ℚ)) (k k' : String) (v : ℚ)
    (h : k' ≠ k) :
    List.lookup k' (m.map (fun p => if p.1 = k then (k, v) else p)) =
      List.lookup k' m := by
  induction m with
  | nil => rfl
  | cons p m ih =>
    rcases p with ⟨a, b⟩
    simp only [List.map_cons]
    dsimp only
    by_cases hak : a = k
    · rw [if_pos hak, List.lookup_cons, beq_false_of_ne h, List.lookup_cons,
        beq_false_of_ne (hak ▸ h)]
      exact ih
    · rw [if_neg hak]
      by_cases hk : k' = a
      · rw [List.lookup_cons, hk, beq_self_eq_true, List.lookup_cons, beq_self_eq_true]
      · rw [List.lookup_cons, beq_false_of_ne hk, List.lookup_cons, beq_false_of_ne hk]
        exact ih

theorem lookup_insertScore_self (m : List (String × ℚ)) (k : String) (v : ℚ) :
    List.lookup k (insertScore m k v) = some v := by
  unfold insertScore
  split
  next hany => exact lookup_map_overwrite m k v hany
  next hany =>
    have hnone : List.lookup k m = none :=
      lookup_eq_none_of_any_eq_false m k (Bool.eq_false_iff.mpr hany)
    rw [lookup_append_of_none m _ k hnone, List.lookup_cons, beq_self_eq_true]

theorem lookup_insertScore_other (m : List (String × ℚ)) (k k' : String) (v : ℚ)
    (h : k' ≠ k) : List.lookup k' (insertScore m k v) = List.lookup k' m := by
  unfold insertScore
  split
  · exact lookup_map_other m k k' v h
  · exact lookup_append_single_other m k k' v h

theorem countP_insertScore_self (m : List (String × ℚ)) (k : String) (v : ℚ) :
    (insertScore m k v).countP (fun p => p.1 == k) =
      if m.any (fun p => p.1 == k) then m.countP (fun p => p.1 == k)
      else m.countP (fun p => p.1 == k) + 1 := by
  unfold insertScore
  split
  · rw [List.countP_map]
    apply List.countP_congr
    intro p _
    rcases p with ⟨a, b⟩
    by_cases hak : a = k <;> simp [Function.comp, hak]
  · rw [List.countP_append]
    simp [List.countP_cons]

theorem countP_insertScore_other (m : List (String × ℚ)) (k k' : String) (v : ℚ)
    (h : k' ≠ k) :
    (insertScore m k v).countP (fun p => p.1 == k') =
      m.countP (fun p => p.1 == k') := by
  have hk : ¬(k = k') := fun he => h he.symm
  unfold insertScore
  split
  · rw [List.countP_map]
    apply List.countP_congr
    intro p _
    rcases p with ⟨a, b⟩
    by_cases hak : a = k <;> simp [Function.comp, hak, hk]
  · rw [List.countP_append]
    simp [List.countP_cons, hk]

theorem mem_insertScore (m : List (String × ℚ)) (k : String) (v : ℚ)
    (p : String × ℚ) (h : p ∈ insertScore m k v) : p ∈ m ∨ p = (k, v) := by
  unfold insertScore at h
  split at h
  · rcases List.mem_map.mp h with ⟨q, hq, hfq⟩
    by_cases hqk : q.1 = k
    · right
      rw [if_pos hqk] at hfq
      exact hfq.symm
    · left
      rw [if_neg hqk] at hfq
      rwa [hfq] at hq
  · rcases List.mem_append.mp h with h | h
    · exact Or.inl h
    · exact Or.inr (by simpa using h)

end DictLemmas

section FoldLemmas

theorem computeScores_append_singleton (rs : List EmployeeActivityRecord)
    (r : EmployeeActivityRecord) :
    computeScores (rs ++ [r]) =
      insertScore (computeScores rs) r.name (burnoutScore r) := by
  simp [computeScores, List.foldl_append]

theorem lastRecordNamed_append_singleton (rs : List EmployeeActivityRecord)
    (r : EmployeeActivityRecord) (n : String) :
    lastRecordNamed (rs ++ [r]) n =
      if r.name = n then some r else lastRecordNamed rs n := by
  simp [lastRecordNamed, List.foldl_append]

/-- The dictionary built by the loop holds, under each name, the score of
the last input record bearing that name. -/
theorem lookup_computeScores (rs : List EmployeeActivityRecord) (n : String) :
    List.lookup n (computeScores rs) = (lastRecordNamed rs n).map burnoutScore := by
  induction rs using List.reverseRecOn with
  | nil => rfl
  | append_singleton rs r ih =>
    rw [computeScores_append_singleton, lastRecordNamed_append_singleton]
    by_cases hn : r.name = n
    · subst hn
      rw [if_pos rfl, lookup_insertScore_self]
      rfl
    · have hn' : n ≠ r.name := fun he => hn he.symm
      rw [if_neg hn, lookup_insertScore_other _ _ _ _ hn']
      exact ih

/-- Each name occurs at most once in the output dictionary: exactly once
when some input record bears it, never otherwise. -/
theorem countP_computeScores (rs : List EmployeeActivityRecord) (n : String) :
    (computeScores rs).countP (fun p => p.1 == n) =
      if (lastRecordNamed rs n).isSome then 1 else 0 := by
  induction rs using List.reverseRecOn with
  | nil => rfl
  | append_singleton rs r ih =>
    rw [computeScores_append_singleton, lastRecordNamed_append_singleton]
    by_cases hn : r.name = n
    · subst hn
      rw [if_pos rfl, countP_insertScore_self, ih]
      by_cases hs : (lastRecordNamed rs r.name).isSome = true
      · have hany : (computeScores rs).any (fun p => p.1 == r.name) = true := by
          rcases List.countP_pos_iff.mp (by rw [ih, if_pos hs]; norm_num) with ⟨p, hp, hpk⟩
          exact List.any_eq_true.mpr ⟨p, hp, hpk⟩
        rw [if_pos hany, if_pos hs]
        simp
      · have hany : (computeScores rs).any (fun p => p.1 == r.name) = false := by
          cases hb : (computeScores rs).any (fun p => p.1 == r.name) with
          | false => rfl
          | true =>
            rcases List.any_eq_true.mp hb with ⟨p, hp, hpk⟩
            have hpos : 0 < (computeScores rs).countP (fun p => p.1 == r.name) :=
              List.countP_pos_iff.mpr ⟨p, hp, hpk⟩
            rw [ih, if_neg hs] at hpos
            exact absurd hpos (by norm_num)
        rw [if_neg (by simp [hany]), if_neg hs]
        simp
    · have hn' : n ≠ r.name := fun he => hn he.symm
      rw [if_neg hn, countP_insertScore_other _ _ _ _ hn']
      exact ih

theorem computeScoresFuel_go (rs : List EmployeeActivityRecord) :
    ∀ m, computeScoresFuel rs.length rs m =
      some (rs.foldl (fun m r => insertScore m r.name (burnoutScore r)) m) := by
  induction rs with
  | nil => intro m; rfl
  | cons r rs ih =>
    intro m
    simp only [List.length_cons, computeScoresFuel, List.foldl_cons]
    exact ih _

end FoldLemmas

section ValidationLemmas

theorem lastRecordNamed_isSome (rs : List EmployeeActivityRecord) (n : String) :
    (lastRecordNamed rs n).isSome = true ↔ ∃ r ∈ rs, r.name = n := by
  induction rs using List.reverseRecOn with
  | nil => simp [lastRecordNamed]
  | append_singleton rs r ih =>
    rw [lastRecordNamed_append_singleton]
    by_cases hn : r.name = n
    · rw [if_pos hn]
      constructor
      · intro _
        exact ⟨r, List.mem_append.mpr (Or.inr (List.mem_singleton.mpr rfl)), hn⟩
      · intro _
        rfl
    · rw [if_neg hn, ih]
      constructor
      · rintro ⟨x, hx, hxn⟩
        exact ⟨x, List.mem_append.mpr (Or.inl hx), hxn⟩
      · rintro ⟨x, hx, hxn⟩
        rcases List.mem_append.mp hx with hx | hx
        · exact ⟨x, hx, hxn⟩
        · rw [List.mem_singleton.mp hx] at hxn
          exact absurd hxn hn

theorem validateRecord_ok_of_recordOk (i : Nat) (r : RawRecord)
    (h : recordOk r = true) : ∃ rec, validateRecord i r = Except.ok rec := by
  unfold recordOk at h
  simp only [Bool.and_eq_true, Option.isSome_iff_exists] at h
  obtain ⟨⟨⟨⟨nm, hnm⟩, it, hit⟩, ma, hma⟩, lc, hlc⟩ := h
  refine ⟨⟨nm, it, ma, lc⟩, ?_⟩
  unfold validateRecord
  rw [hnm, hit, hma, hlc]

theorem validateRecord_error_of_not_recordOk (i : Nat) (r : RawRecord)
    (h : recordOk r = false) :
    ∃ f, validateRecord i r = Except.error ⟨i, f⟩ ∧ fieldBad r f := by
  unfold validateRecord
  cases hnm : r.name with
  | none => exact ⟨"name", rfl, Or.inl ⟨rfl, hnm⟩⟩
  | some nm =>
    cases hit : validateField r.idle_time with
    | none => exact ⟨"idle_time", rfl, Or.inr (Or.inl ⟨rfl, hit⟩)⟩
    | some it =>
      cases hma : validateField r.meetings_attended with
      | none => exact ⟨"meetings_attended", rfl, Or.inr (Or.inr (Or.inl ⟨rfl, hma⟩))⟩
      | some ma =>
        cases hlc : validateField r.login_count with
        | none => exact ⟨"login_count", rfl, Or.inr (Or.inr (Or.inr ⟨rfl, hlc⟩))⟩
        | some lc =>
          exfalso
          unfold recordOk at h
          rw [hnm, hit, hma, hlc] at h
          simp at h

theorem validateFrom_error (rs : List RawRecord) :
    ∀ (j i : Nat) (r : RawRecord), rs[i]? = some r → recordOk r = false →
      ∃ e, validateFrom j rs = Except.error e ∧
        ∃ i2 r2, e.recordIndex = j + i2 ∧ rs[i2]? = some r2 ∧
          fieldBad r2 e.fieldName := by
  induction rs with
  | nil =>
    intro j i r hget
    simp at hget
  | cons r0 rs ih =>
    intro j i r hget hbad
    by_cases h0 : recordOk r0 = true
    · rcases validateRecord_ok_of_recordOk j r0 h0 with ⟨rec, hrec⟩
      cases i with
      | zero =>
        rw [List.getElem?_cons_zero] at hget
        cases hget
        rw [h0] at hbad
        cases hbad
      | succ i =>
        rw [List.getElem?_cons_succ] at hget
        rcases ih (j + 1) i r hget hbad with ⟨e, he, i2, r2, hidx, hget2, hfb⟩
        refine ⟨e, ?_, i2 + 1, r2, by omega, ?_, hfb⟩
        · unfold validateFrom
          rw [hrec, he]
        · rw [List.getElem?_cons_succ]
          exact hget2
    · rcases validateRecord_error_of_not_recordOk j r0 (Bool.eq_false_iff.mpr h0)
        with ⟨f, hf, hfb⟩
      refine ⟨⟨j, f⟩, ?_, 0, r0, rfl, List.getElem?_cons_zero, hfb⟩
      unfold validateFrom
      rw [hf]

end ValidationLemmas

section Claims

/-- C1 (counterexample): the claim says the assigned score follows the spec
formula `clamp(100 - idle*1 - max(0, 5 - meetings)*2 - max(0, 3 - logins)*3)`;
at idle 1, meetings 5, logins 3 the engine stores 98 while that formula
gives 99, so the claimed equality is false. -/
theorem computeScores_ne_specScore :
    List.lookup "A" (computeScores [⟨"A", 1, 5, 3⟩]) = some 98 ∧
    specScore ⟨"A", 1, 5, 3⟩ = 99 ∧
    List.lookup "A" (computeScores [⟨"A", 1, 5, 3⟩]) ≠
      some (specScore ⟨"A", 1, 5, 3⟩) := by
  refine ⟨?_, ?_, ?_⟩ <;>
    norm_num [computeScores, insertScore, burnoutScore, specScore, pyMax, pyMin,
      List.lookup]

/-- C1 (amended): the score `computeScores` assigns to the name of a
record — the last one bearing that name — is
`clamp(100 - idle*2 - (5 - meetings)*3 - (3 - logins)*4, 0, 100)`:
weights 2, 3, 4 and no inner floors on the shortfall terms. -/
theorem computeScores_assigns_code_formula (rs : List EmployeeActivityRecord)
    (r : EmployeeActivityRecord) :
    List.lookup r.name (computeScores (rs ++ [r])) =
      some (pyMax 0 (pyMin 100
        (100 - (r.idle_time * 2 + (5 - r.meetings_attended) * 3
          + (3 - r.login_count) * 4)))) := by
  rw [computeScores_append_singleton, lookup_insertScore_self]
  rfl

/-- C2 (counterexample): the claim says the score at the meeting floor 5
equals the score at 8 (and logins at 3 equal logins above 3); with idle 10
the engine gives 80 at the floors but 89 with 8 meetings and 88 with 5
logins, because each extra meeting adds 3 and each extra login adds 4
before clamping. -/
theorem score_floor_not_equal :
    burnoutScore ⟨"A", 10, 5, 3⟩ = 80 ∧
    burnoutScore ⟨"A", 10, 8, 3⟩ = 89 ∧
    burnoutScore ⟨"A", 10, 5, 5⟩ = 88 ∧
    burnoutScore ⟨"A", 10, 5, 3⟩ ≠ burnoutScore ⟨"A", 10, 8, 3⟩ ∧
    burnoutScore ⟨"A", 10, 5, 3⟩ ≠ burnoutScore ⟨"A", 10, 5, 5⟩ := by
  norm_num [burnoutScore, pyMax, pyMin]

/-- C2 (amended): exceeding a floor is never penalized and earns a bonus
before clamping — the raw score at meetings 8 exceeds the raw score at the
floor 5 by exactly 3 points per extra meeting, and the raw score at any
login count of at least 3 exceeds the raw score at the floor 3 by exactly
4 points per extra login; after clamping the floor score remains a lower
bound, and the bonus still shows as a strict increase whenever the count
strictly exceeds the floor and the clamp is not saturated (the higher
score above 0, the floor score below 100). -/
theorem score_floor_bonus (nm : String) (i m l l' : ℚ) (h : 3 ≤ l') :
    rawScore ⟨nm, i, 8, l⟩ = rawScore ⟨nm, i, 5, l⟩ + 3 * (8 - 5) ∧
    rawScore ⟨nm, i, m, l'⟩ = rawScore ⟨nm, i, m, 3⟩ + 4 * (l' - 3) ∧
    burnoutScore ⟨nm, i, 5, l⟩ ≤ burnoutScore ⟨nm, i, 8, l⟩ ∧
    burnoutScore ⟨nm, i, m, 3⟩ ≤ burnoutScore ⟨nm, i, m, l'⟩ ∧
    (0 < burnoutScore ⟨nm, i, 8, l⟩ → burnoutScore ⟨nm, i, 5, l⟩ < 100 →
      burnoutScore ⟨nm, i, 5, l⟩ < burnoutScore ⟨nm, i, 8, l⟩) ∧
    (3 < l' → 0 < burnoutScore ⟨nm, i, m, l'⟩ → burnoutScore ⟨nm, i, m, 3⟩ < 100 →
      burnoutScore ⟨nm, i, m, 3⟩ < burnoutScore ⟨nm, i, m, l'⟩) := by
  refine ⟨?_, ?_, ?_, ?_, ?_, ?_⟩
  · unfold rawScore
    dsimp only
    ring
  · unfold rawScore
    dsimp only
    ring
  · unfold burnoutScore pyMax pyMin
    dsimp only
    split_ifs <;> linarith
  · unfold burnoutScore pyMax pyMin
    dsimp only
    split_ifs <;> linarith
  · intro h1 h2
    unfold burnoutScore pyMax pyMin at h1 h2 ⊢
    dsimp only at h1 h2 ⊢
    split_ifs at h1 h2 ⊢ <;> linarith
  · intro hl h1 h2
    unfold burnoutScore pyMax pyMin at h1 h2 ⊢
    dsimp only at h1 h2 ⊢
    split_ifs at h1 h2 ⊢ <;> linarith

theorem score_floor_bonus_witness :
    (3 : ℚ) ≤ 5 ∧
    (rawScore ⟨"A", 10, 8, 3⟩ = rawScore ⟨"A", 10, 5, 3⟩ + 3 * (8 - 5) ∧
     rawScore ⟨"A", 10, 0, 5⟩ = rawScore ⟨"A", 10, 0, 3⟩ + 4 * (5 - 3) ∧
     burnoutScore ⟨"A", 10, 5, 3⟩ ≤ burnoutScore ⟨"A", 10, 8, 3⟩ ∧
     burnoutScore ⟨"A", 10, 0, 3⟩ ≤ burnoutScore ⟨"A", 10, 0, 5⟩ ∧
     (0 < burnoutScore ⟨"A", 10, 8, 3⟩ → burnoutScore ⟨"A", 10, 5, 3⟩ < 100 →
       burnoutScore ⟨"A", 10, 5, 3⟩ < burnoutScore ⟨"A", 10, 8, 3⟩) ∧
     ((3 : ℚ) < 5 → 0 < burnoutScore ⟨"A", 10, 0, 5⟩ → burnoutScore ⟨"A", 10, 0, 3⟩ < 100 →
       burnoutScore ⟨"A", 10, 0, 3⟩ < burnoutScore ⟨"A", 10, 0, 5⟩)) :=
  ⟨by norm_num, score_floor_bonus "A" 10 0 3 5 (by norm_num)⟩

/-- C3: every score in the mapping returned by `computeScores` lies in the
closed interval [0, 100], whatever the numeric field values are. -/
theorem computeScores_bounded (rs : List EmployeeActivityRecord)
    (p : String × ℚ) (h : p ∈ computeScores rs) : 0 ≤ p.2 ∧ p.2 ≤ 100 := by
  induction rs using List.reverseRecOn with
  | nil => simp [computeScores] at h
  | append_singleton rs r ih =>
    rw [computeScores_append_singleton] at h
    rcases mem_insertScore _ _ _ _ h with h | h
    · exact ih h
    · rw [h]
      exact ⟨burnoutScore_nonneg r, burnoutScore_le_100 r⟩

theorem computeScores_bounded_witness :
    ("A", (33 : ℚ)) ∈ computeScores [⟨"A", 20, 0, 0⟩] ∧
    0 ≤ (("A", (33 : ℚ)) : String × ℚ).2 ∧ (("A", (33 : ℚ)) : String × ℚ).2 ≤ 100 := by
  have hm : ("A", (33 : ℚ)) ∈ computeScores [⟨"A", 20, 0, 0⟩] := by
    norm_num [computeScores, insertScore, burnoutScore, pyMax, pyMin]
  exact ⟨hm, computeScores_bounded _ _ hm⟩

/-- C4 (counterexample): the claim says one extra meeting strictly raises
the score while still below the floor; with idle 100 both raw values are
deeply negative, both scores clamp to 0, and the strict increase fails. -/
theorem score_meetings_not_strict :
    (0 : ℚ) < 5 ∧ (0 : ℚ) + 1 < 5 ∧
    burnoutScore ⟨"A", 100, 0, 3⟩ = 0 ∧
    burnoutScore ⟨"A", 100, 0 + 1, 3⟩ = 0 ∧
    ¬(burnoutScore ⟨"A", 100, 0, 3⟩ < burnoutScore ⟨"A", 100, 0 + 1, 3⟩) := by
  norm_num [burnoutScore, pyMax, pyMin]

/-- C4 (amended): below the meeting floor, one extra meeting never lowers
the score, and strictly raises it whenever the clamp is not saturated —
that is, whenever the new score is above 0 and the old score is below
100. -/
theorem score_meetings_monotone (nm : String) (i m l : ℚ) (h : m < 5) :
    burnoutScore ⟨nm, i, m, l⟩ ≤ burnoutScore ⟨nm, i, m + 1, l⟩ ∧
    (0 < burnoutScore ⟨nm, i, m + 1, l⟩ → burnoutScore ⟨nm, i, m, l⟩ < 100 →
      burnoutScore ⟨nm, i, m, l⟩ < burnoutScore ⟨nm, i, m + 1, l⟩) := by
  unfold burnoutScore pyMax pyMin
  dsimp only
  constructor
  · split_ifs <;> linarith
  · intro h1 h2
    split_ifs at h1 h2 ⊢ <;> linarith

theorem score_meetings_monotone_witness :
    (3 : ℚ) < 5 ∧
    (burnoutScore ⟨"A", 0, 3, 3⟩ ≤ burnoutScore ⟨"A", 0, 3 + 1, 3⟩ ∧
     (0 < burnoutScore ⟨"A", 0, 3 + 1, 3⟩ → burnoutScore ⟨"A", 0, 3, 3⟩ < 100 →
       burnoutScore ⟨"A", 0, 3, 3⟩ < burnoutScore ⟨"A", 0, 3 + 1, 3⟩)) :=
  ⟨by norm_num, score_meetings_monotone "A" 0 3 3 (by norm_num)⟩

/-- C5 (spec-modelled): if some record of the batch is missing a required
field or has a non-numeric one, the validating engine returns a
`ValidationError` naming an offending record and field instead of a
mapping — nothing is coerced to zero and no record is skipped. -/
theorem validation_signals_error (rs : List RawRecord) (i : Nat) (r : RawRecord)
    (hget : rs[i]? = some r) (hbad : recordOk r = false) :
    ∃ e, computeScoresChecked rs = Except.error e ∧
      ∃ rbad, rs[e.recordIndex]? = some rbad ∧ fieldBad rbad e.fieldName := by
  rcases validateFrom_error rs 0 i r hget hbad with ⟨e, he, i2, r2, hidx, hget2, hfb⟩
  refine ⟨e, ?_, r2, ?_, hfb⟩
  · unfold computeScoresChecked
    rw [he]
  · rw [hidx, Nat.zero_add]
    exact hget2

theorem validation_signals_error_witness :
    ([⟨some "A", none, some (FieldValue.num 1), some (FieldValue.num 2)⟩] :
        List RawRecord)[0]? =
      some ⟨some "A", none, some (FieldValue.num 1), some (FieldValue.num 2)⟩ ∧
    recordOk ⟨some "A", none, some (FieldValue.num 1), some (FieldValue.num 2)⟩ = false ∧
    ∃ e, computeScoresChecked
        [⟨some "A", none, some (FieldValue.num 1), some (FieldValue.num 2)⟩] =
        Except.error e ∧
      ∃ rbad, ([⟨some "A", none, some (FieldValue.num 1), some (FieldValue.num 2)⟩] :
          List RawRecord)[e.recordIndex]? = some rbad ∧ fieldBad rbad e.fieldName :=
  ⟨rfl, rfl, validation_signals_error _ 0 _ rfl rfl⟩

/-- C6: a batch holding two or more records with the same name yields
exactly one entry for that name, holding the score of the last such record
in input order. -/
theorem computeScores_duplicate_names (rs : List EmployeeActivityRecord) (n : String)
    (h : 2 ≤ rs.countP (fun r => r.name == n)) :
    (computeScores rs).countP (fun p => p.1 == n) = 1 ∧
    ∃ r, lastRecordNamed rs n = some r ∧
      List.lookup n (computeScores rs) = some (burnoutScore r) := by
  have hex : ∃ r ∈ rs, r.name = n := by
    have hpos : 0 < rs.countP (fun r => r.name == n) := by omega
    rcases List.countP_pos_iff.mp hpos with ⟨r, hr, hrn⟩
    exact ⟨r, hr, by simpa using hrn⟩
  have hsome : (lastRecordNamed rs n).isSome = true :=
    (lastRecordNamed_isSome rs n).mpr hex
  constructor
  · rw [countP_computeScores, if_pos hsome]
  · rcases Option.isSome_iff_exists.mp hsome with ⟨r, hr⟩
    refine ⟨r, hr, ?_⟩
    rw [lookup_computeScores, hr]
    rfl

theorem computeScores_duplicate_names_witness :
    2 ≤ ([⟨"A", 10, 5, 3⟩, ⟨"A", 0, 5, 3⟩] : List EmployeeActivityRecord).countP
        (fun r => r.name == "A") ∧
    ((computeScores [⟨"A", 10, 5, 3⟩, ⟨"A", 0, 5, 3⟩]).countP
        (fun p => p.1 == "A") = 1 ∧
     ∃ r, lastRecordNamed [⟨"A", 10, 5, 3⟩, ⟨"A", 0, 5, 3⟩] "A" = some r ∧
       List.lookup "A" (computeScores [⟨"A", 10, 5, 3⟩, ⟨"A", 0, 5, 3⟩]) =
         some (burnoutScore r)) :=
  ⟨by decide, computeScores_duplicate_names _ "A" (by decide)⟩

/-- C7: holding meetings and logins fixed, increasing idle time never
increases the score. -/
theorem score_idle_antitone (nm : String) (i i' m l : ℚ) (h : i ≤ i') :
    burnoutScore ⟨nm, i', m, l⟩ ≤ burnoutScore ⟨nm, i, m, l⟩ := by
  unfold burnoutScore pyMax pyMin
  dsimp only
  split_ifs <;> linarith

theorem score_idle_antitone_witness :
    (5 : ℚ) ≤ 10 ∧
    burnoutScore ⟨"A", 10, 5, 3⟩ ≤ burnoutScore ⟨"A", 5, 5, 3⟩ :=
  ⟨by norm_num, score_idle_antitone "A" 5 10 5 3 (by norm_num)⟩

/-- C8: the empty batch is not an error and produces the empty mapping. -/
theorem computeScores_nil : computeScores [] = [] := rfl

/-- C9: the scoring loop terminates, spending exactly one insertion step
per record: with fuel equal to the batch length, the fuel-indexed loop
completes and returns exactly the mapping of `computeScores`. -/
theorem computeScores_terminates (rs : List EmployeeActivityRecord) :
    computeScoresFuel rs.length rs [] = some (computeScores rs) :=
  computeScoresFuel_go rs []

/-- C10: `computeScores` is the left fold of per-record dictionary inserts,
and appending a record leaves the entry of every other name unchanged. -/
theorem computeScores_fold_append (rs : List EmployeeActivityRecord)
    (r : EmployeeActivityRecord) (n : String) (h : n ≠ r.name) :
    computeScores (rs ++ [r]) =
      insertScore (computeScores rs) r.name (burnoutScore r) ∧
    List.lookup n (computeScores (rs ++ [r])) = List.lookup n (computeScores rs) := by
  refine ⟨computeScores_append_singleton rs r, ?_⟩
  rw [computeScores_append_singleton, lookup_insertScore_other _ _ _ _ h]

theorem computeScores_fold_append_witness :
    "B" ≠ "A" ∧
    (computeScores ([⟨"B", 0, 5, 3⟩] ++ [⟨"A", 1, 5, 3⟩]) =
       insertScore (computeScores [⟨"B", 0, 5, 3⟩]) "A" (burnoutScore ⟨"A", 1, 5, 3⟩) ∧
     List.lookup "B" (computeScores ([⟨"B", 0, 5, 3⟩] ++ [⟨"A", 1, 5, 3⟩])) =
       List.lookup "B" (computeScores [⟨"B", 0, 5, 3⟩])) :=
  ⟨by decide, computeScores_fold_append [⟨"B", 0, 5, 3⟩] ⟨"A", 1, 5, 3⟩ "B" (by decide)⟩

end Claims

end BurnoutEngine
